import Mathlib

/-!
Verification development for the voxel world engine of a browser mining game.

The definitions below are a shallow embedding of the TypeScript sources:
`src/utils/noise.ts`, `src/world/Chunk.ts`, `src/world/WorldManager.ts` and
the data interfaces of `src/config/types.ts` / `src/config/constants.ts`.

Modelling conventions:
* JavaScript numbers are modelled as exact rationals (`ℚ`) for continuous
  values and as `Int`/`Nat` for integer-valued quantities.  Decimal literals
  such as `0.02` are modelled as the exact rationals they denote; the
  double-precision rounding of products larger than `2^53` inside the integer
  hash is not modelled (no claim depends on particular hash values).
* JavaScript 32-bit coercions (`|0`, `^`, `>>`, `>>>`) are modelled with
  explicit two's-complement conversions on `Int`/`Nat` (`% 2^32`); an
  arithmetic right shift is floor division by a power of two.
* The static block registry (`BLOCK_DEFS`) and ore registry (`ORE_DEFS`) are
  configuration tables that live outside the core sources; all operations
  that consult them take the table as an explicit parameter, and the claims
  are proved for every table.
* `THREE.js` scene objects (meshes, materials, geometry disposal) are
  rendering-side resources; the mesh geometry produced by `Chunk.buildMesh`
  is modelled by `buildMeshData` (positions / normals / triangle indices),
  while the scheduler models a mesh rebuild by its observable bookkeeping
  effect (the `dirty` flag).
-/

/-! ## Constants (`src/config/constants.ts`) -/

def BLOCK_SIZE : ℚ := 1/2
def CHUNK_SIZE : Int := 16
def MAX_DEPTH_LEVELS : Int := 50
def MAX_DEPTH_BLOCKS : Int := MAX_DEPTH_LEVELS * 2
def RENDER_DISTANCE : Int := 6

/-! ## Block types (`src/config/types.ts`)

Block types are the integer codes stored in the chunk's `Uint8Array`. -/

abbrev BlockType := Nat

def BlockType.air : BlockType := 0
def BlockType.grass : BlockType := 1
def BlockType.dirt : BlockType := 2
def BlockType.stone : BlockType := 3
def BlockType.bedrock : BlockType := 50

/-- The fields of a `BlockDef` consulted by the voxel core (meshing):
solidity, transparency and display color. -/
structure BlockDef where
  solid : Bool
  transparent : Bool
  color : Nat
  deriving DecidableEq

/-- An ore definition (`src/config/types.ts`, `OreDef`); the fields consulted
by terrain generation.  (`clusterSize` and `sellPrice` are never read by the
generator and are omitted.) -/
structure OreDef where
  blockType : BlockType
  tier : Int
  minDepth : Int
  maxDepth : Int
  rarity : ℚ
  deriving DecidableEq

/-! ## Noise primitives (`src/utils/noise.ts`) -/

/-- Two's-complement bit pattern of the JS `ToInt32` coercion of an integer. -/
def i32bits (n : Int) : Nat := (n.emod 4294967296).toNat

/-- Signed value of a 32-bit pattern. -/
def u32ToI32 (u : Nat) : Int := if u < 2147483648 then (u : Int) else (u : Int) - 4294967296

/-- JS `ToInt32` on an integer value. -/
def jsI32 (n : Int) : Int := u32ToI32 (i32bits n)

/-- `hash2d(x, y, seed)`: seed-salted integer hash of a 2D lattice point,
mapped into `[0,1]` by `(h >>> 0) / 0xffffffff`. -/
def hash2d (x y seed : Int) : ℚ :=
  let h0 : Int := seed + x * 374761393 + y * 668265263
  let s1 : Int := jsI32 h0
  let s2 : Int := Int.fdiv s1 8192
  let m : Int := u32ToI32 (Nat.xor (i32bits s1) (i32bits s2)) * 1274126177
  let s3 : Int := jsI32 m
  let s4 : Int := Int.fdiv s3 65536
  let r : Nat := Nat.xor (i32bits s3) (i32bits s4)
  (r : ℚ) / 4294967295

/-- `hash3d(x, y, z, seed)`: 3D variant of `hash2d`. -/
def hash3d (x y z seed : Int) : ℚ :=
  let h0 : Int := seed + x * 374761393 + y * 668265263 + z * 1440670441
  let s1 : Int := jsI32 h0
  let s2 : Int := Int.fdiv s1 8192
  let m : Int := u32ToI32 (Nat.xor (i32bits s1) (i32bits s2)) * 1274126177
  let s3 : Int := jsI32 m
  let s4 : Int := Int.fdiv s3 65536
  let r : Nat := Nat.xor (i32bits s3) (i32bits s4)
  (r : ℚ) / 4294967295

def lerp (a b t : ℚ) : ℚ := a + t * (b - a)

def smoothstep (t : ℚ) : ℚ := t * t * (3 - 2 * t)

/-- `noise2d(x, y, seed)`: 2D value noise; hashes the four lattice corners
around `(x, y)` and blends them with smoothstep weights. -/
def noise2d (x y : ℚ) (seed : Int) : ℚ :=
  let ix : Int := ⌊x⌋
  let iy : Int := ⌊y⌋
  let fx : ℚ := smoothstep (x - ix)
  let fy : ℚ := smoothstep (y - iy)
  let a := hash2d ix iy seed
  let b := hash2d (ix + 1) iy seed
  let c := hash2d ix (iy + 1) seed
  let d := hash2d (ix + 1) (iy + 1) seed
  lerp (lerp a b fx) (lerp c d fx) fy

/-- `noise3d(x, y, z, seed)`: 3D value noise over the eight lattice corners. -/
def noise3d (x y z : ℚ) (seed : Int) : ℚ :=
  let ix : Int := ⌊x⌋
  let iy : Int := ⌊y⌋
  let iz : Int := ⌊z⌋
  let fx : ℚ := smoothstep (x - ix)
  let fy : ℚ := smoothstep (y - iy)
  let fz : ℚ := smoothstep (z - iz)
  let a := hash3d ix iy iz seed
  let b := hash3d (ix + 1) iy iz seed
  let c := hash3d ix (iy + 1) iz seed
  let d := hash3d (ix + 1) (iy + 1) iz seed
  let e := hash3d ix iy (iz + 1) seed
  let f := hash3d (ix + 1) iy (iz + 1) seed
  let g := hash3d ix (iy + 1) (iz + 1) seed
  let h := hash3d (ix + 1) (iy + 1) (iz + 1) seed
  let x1 := lerp (lerp a b fx) (lerp c d fx) fy
  let x2 := lerp (lerp e f fx) (lerp g h fx) fy
  lerp x1 x2 fz

/-- The loop body of `fbm2d`, recursing over the remaining octave count while
carrying `(value, amplitude, frequency, maxValue)` and the octave index `i`
(used for the per-octave seed offset `seed + i * 1000`). -/
def fbmAux (x y : ℚ) (seed : Int) (lacunarity gain : ℚ) :
    Nat → Nat → ℚ → ℚ → ℚ → ℚ → ℚ × ℚ
  | 0, _, value, _, _, maxValue => (value, maxValue)
  | n + 1, i, value, amplitude, frequency, maxValue =>
      fbmAux x y seed lacunarity gain n (i + 1)
        (value + amplitude * noise2d (x * frequency) (y * frequency) (seed + i * 1000))
        (amplitude * gain) (frequency * lacunarity) (maxValue + amplitude)

/-- `fbm2d(x, y, seed, octaves, lacunarity, gain)`: fractal sum of `octaves`
layers of `noise2d`, normalized by the total amplitude. -/
def fbm2d (x y : ℚ) (seed : Int) (octaves : Nat) (lacunarity gain : ℚ) : ℚ :=
  let r := fbmAux x y seed lacunarity gain octaves 0 0 1 1 0
  r.1 / r.2

/-! ## Chunk (`src/world/Chunk.ts`)

A 16×16×16 voxel cube.  The `Uint8Array` of block codes is modelled as a
function from the flat index `x + y*16 + z*256` to the stored code (the array
is total over `[0, 4096)`; unwritten cells hold `0`, i.e. air). -/

structure Chunk where
  cx : Int
  cy : Int
  cz : Int
  blocks : Nat → BlockType
  dirty : Bool

/-- `Chunk.getBlock`: bounds-checked read; out-of-range coordinates read air. -/
def Chunk.getBlock (c : Chunk) (x y z : Int) : BlockType :=
  if x < 0 ∨ 16 ≤ x ∨ y < 0 ∨ 16 ≤ y ∨ z < 0 ∨ 16 ≤ z then BlockType.air
  else c.blocks (x + y * 16 + z * 256).toNat

/-- `Chunk.setBlock`: bounds-checked write; out-of-range writes are dropped,
in-range writes store the code and raise the `dirty` flag. -/
def Chunk.setBlock (c : Chunk) (x y z : Int) (t : BlockType) : Chunk :=
  if x < 0 ∨ 16 ≤ x ∨ y < 0 ∨ 16 ≤ y ∨ z < 0 ∨ 16 ≤ z then c
  else { c with blocks := Function.update c.blocks (x + y * 16 + z * 256).toNat t,
                dirty := true }

/-- `Chunk.getBlockOrNeighbor`: an in-range local coordinate reads this
chunk's array; otherwise the coordinate is converted to world space and
resolved through the caller-supplied neighbor lookup. -/
def Chunk.getBlockOrNeighbor (c : Chunk) (lx ly lz : Int)
    (getNeighborBlock : Int → Int → Int → BlockType) : BlockType :=
  if 0 ≤ lx ∧ lx < 16 ∧ 0 ≤ ly ∧ ly < 16 ∧ 0 ≤ lz ∧ lz < 16 then
    c.blocks (lx + ly * 16 + lz * 256).toNat
  else
    getNeighborBlock (c.cx * 16 + lx) (c.cy * 16 + ly) (c.cz * 16 + lz)

/-! ## Meshing (`Chunk.buildMesh`) -/

/-- One of the six face directions: offset to the adjacent cell, the four
corner offsets of the emitted quad (in emission order), and the face normal. -/
structure Face where
  dx : Int
  dy : Int
  dz : Int
  corners : List (Nat × Nat × Nat)
  normal : Int × Int × Int
  deriving DecidableEq

/-- The face table of `buildMesh`, in source order (+X, −X, +Y, −Y, +Z, −Z). -/
def faceList : List Face :=
  [ ⟨1, 0, 0, [(1, 0, 0), (1, 1, 0), (1, 1, 1), (1, 0, 1)], (1, 0, 0)⟩,
    ⟨-1, 0, 0, [(0, 0, 1), (0, 1, 1), (0, 1, 0), (0, 0, 0)], (-1, 0, 0)⟩,
    ⟨0, 1, 0, [(0, 1, 0), (0, 1, 1), (1, 1, 1), (1, 1, 0)], (0, 1, 0)⟩,
    ⟨0, -1, 0, [(0, 0, 1), (0, 0, 0), (1, 0, 0), (1, 0, 1)], (0, -1, 0)⟩,
    ⟨0, 0, 1, [(1, 0, 1), (1, 1, 1), (0, 1, 1), (0, 0, 1)], (0, 0, 1)⟩,
    ⟨0, 0, -1, [(0, 0, 0), (0, 1, 0), (1, 1, 0), (1, 0, 0)], (0, 0, -1)⟩ ]

/-- The face-emission test of `buildMesh`: a face is emitted exactly when the
adjacent block is air, has no registry entry, or is explicitly transparent
(the source skips the face when
`neighbor !== BlockType.Air && neighborDef && !neighborDef.transparent`). -/
def emitFace (defs : BlockType → Option BlockDef) (nb : BlockType) : Bool :=
  if nb = BlockType.air then true
  else ((defs nb).map fun nd => nd.transparent).getD true

/-- The faces emitted for one cell of the chunk: air cells, unregistered
codes and non-solid blocks emit nothing; otherwise each of the six faces is
emitted iff its neighbor passes `emitFace`. -/
def cellFaces (c : Chunk) (defs : BlockType → Option BlockDef)
    (getNeighborBlock : Int → Int → Int → BlockType) (x y z : Nat) : List Face :=
  let bt := c.blocks (x + y * 16 + z * 256)
  if bt = BlockType.air then []
  else if ((defs bt).map BlockDef.solid).getD false then
    faceList.filter fun f =>
      emitFace defs (c.getBlockOrNeighbor ((x : Int) + f.dx) ((y : Int) + f.dy)
        ((z : Int) + f.dz) getNeighborBlock)
  else []

/-- The quads of one cell, tagged with the cell position. -/
def cellQuads (c : Chunk) (defs : BlockType → Option BlockDef)
    (getNeighborBlock : Int → Int → Int → BlockType) (x y z : Nat) :
    List ((Nat × Nat × Nat) × Face) :=
  (cellFaces c defs getNeighborBlock x y z).map fun f => ((x, y, z), f)

/-- All quads emitted by `buildMesh`, in the source's iteration order
(`z` outermost, then `y`, then `x`, then the face table). -/
def chunkQuads (c : Chunk) (defs : BlockType → Option BlockDef)
    (getNeighborBlock : Int → Int → Int → BlockType) :
    List ((Nat × Nat × Nat) × Face) :=
  (List.range 16).flatMap fun z =>
    (List.range 16).flatMap fun y =>
      (List.range 16).flatMap fun x =>
        cellQuads c defs getNeighborBlock x y z

/-- The four vertex positions pushed for one quad: corner offsets added to
the cell position and scaled by `BLOCK_SIZE`. -/
def quadVerts (q : (Nat × Nat × Nat) × Face) : List (ℚ × ℚ × ℚ) :=
  q.2.corners.map fun p =>
    (((q.1.1 + p.1 : Nat) : ℚ) * BLOCK_SIZE,
     ((q.1.2.1 + p.2.1 : Nat) : ℚ) * BLOCK_SIZE,
     ((q.1.2.2 + p.2.2 : Nat) : ℚ) * BLOCK_SIZE)

/-- The geometry buffers produced by `buildMesh`: per-quad four vertex
positions and normals, and six triangle indices based at the quad's running
vertex offset `4*i`.  (Vertex colors follow the same per-quad cardinality as
normals and are omitted, as are the `THREE.js` material and scene objects.) -/
structure MeshData where
  positions : List (ℚ × ℚ × ℚ)
  normals : List (Int × Int × Int)
  indices : List Nat

def buildMeshData (c : Chunk) (defs : BlockType → Option BlockDef)
    (getNeighborBlock : Int → Int → Int → BlockType) : MeshData :=
  let quads := chunkQuads c defs getNeighborBlock
  { positions := quads.flatMap quadVerts
    normals := quads.flatMap fun q => List.replicate 4 q.2.normal
    indices := (List.range quads.length).flatMap fun i =>
      [4 * i, 4 * i + 1, 4 * i + 2, 4 * i, 4 * i + 2, 4 * i + 3] }

def MeshData.vertexCount (m : MeshData) : Nat := m.positions.length

def MeshData.triangleCount (m : MeshData) : Nat := m.indices.length / 3

/-! ## Terrain and ore generation (`WorldManager.generateChunk`) -/

/-- The ore-selection loop: the definitions are consulted in list order; a
definition whose depth band excludes the cell is skipped, the first whose
tier-salted 3D noise sample exceeds its rarity threshold wins, and if none
matches the cell stays base stone. -/
def selectOre (oreDefs : List OreDef) (seed bx by' bz depthLevel : Int) : BlockType :=
  match oreDefs with
  | [] => BlockType.stone
  | ore :: rest =>
    if depthLevel < ore.minDepth ∨ depthLevel > ore.maxDepth then
      selectOre rest seed bx by' bz depthLevel
    else if noise3d (bx * (3/20)) (by' * (3/20)) (bz * (3/20)) (seed + ore.tier * 7919)
        > 1 - ore.rarity * 2 then
      ore.blockType
    else
      selectOre rest seed bx by' bz depthLevel

/-- An ore definition matches a cell when the cell's depth level lies in its
`[minDepth, maxDepth]` band and its tier-salted noise sample exceeds the
rarity-derived threshold. -/
def oreMatches (seed bx by' bz depthLevel : Int) (ore : OreDef) : Prop :=
  ore.minDepth ≤ depthLevel ∧ depthLevel ≤ ore.maxDepth ∧
    noise3d (bx * (3/20)) (by' * (3/20)) (bz * (3/20)) (seed + ore.tier * 7919)
      > 1 - ore.rarity * 2

instance (seed bx by' bz depthLevel : Int) :
    DecidablePred (oreMatches seed bx by' bz depthLevel) := fun _ =>
  inferInstanceAs (Decidable (_ ∧ _ ∧ _))

/-- The block generated for one cell of chunk `(cx, cy, cz)` at local
coordinates `(lx, ly, lz)`: bedrock at or below the depth floor, air above
the noise-derived surface, grass at the surface, dirt just below it, and
otherwise stone or the first matching ore.  (The source computes the surface
height once per `(x, z)` column; being a pure value it is inlined here.) -/
def genCell (seed : Int) (oreDefs : List OreDef) (cx cy cz : Int) (lx ly lz : Nat) :
    BlockType :=
  let bx : Int := cx * 16 + lx
  let bz : Int := cz * 16 + lz
  let by' : Int := cy * 16 + ly
  if by' ≤ -MAX_DEPTH_BLOCKS then BlockType.bedrock
  else
    let surfaceNoise := fbm2d ((bx : ℚ) * (1/50)) ((bz : ℚ) * (1/50)) seed 4 2 (1/2)
    let surfaceHeight : Int := ⌊surfaceNoise * 6 - 2⌋
    if by' > surfaceHeight then BlockType.air
    else if by' = surfaceHeight then BlockType.grass
    else if by' > surfaceHeight - 3 then BlockType.dirt
    else selectOre oreDefs seed bx by' bz (Int.fdiv (-by') 2)

/-- The chunk produced by `generateChunk` on a freshly constructed `Chunk`:
every in-range flat index holds the generated cell value (a new chunk starts
dirty and `setBlock` keeps it dirty). -/
def genChunkData (seed : Int) (oreDefs : List OreDef) (cx cy cz : Int) : Chunk :=
  { cx := cx, cy := cy, cz := cz,
    blocks := fun i =>
      if i < 4096 then genCell seed oreDefs cx cy cz (i % 16) (i / 16 % 16) (i / 256)
      else BlockType.air,
    dirty := true }

/-! ## World manager (`src/world/WorldManager.ts`)

The `Map` from chunk key to chunk is modelled as an association list in
insertion order (`Map.set` of a fresh key appends). -/

abbrev ChunkKey := Int × Int × Int

structure WorldManager where
  seed : Int
  chunks : List (ChunkKey × Chunk)

/-- `this.chunks.get(chunkKey(...))`. -/
def findChunk : List (ChunkKey × Chunk) → ChunkKey → Option Chunk
  | [], _ => none
  | (k, c) :: rest, q => if k = q then some c else findChunk rest q

/-- In-place mutation of the chunk stored under an existing key. -/
def setChunkAt (m : List (ChunkKey × Chunk)) (k : ChunkKey) (c : Chunk) :
    List (ChunkKey × Chunk) :=
  m.map fun kv => if kv.1 = k then (kv.1, c) else kv

/-- `markDirty(cx, cy, cz)`: raise the dirty flag of the chunk stored under
the key, if present. -/
def mapDirty (m : List (ChunkKey × Chunk)) (k : ChunkKey) : List (ChunkKey × Chunk) :=
  m.map fun kv => if kv.1 = k then (kv.1, { kv.2 with dirty := true }) else kv

/-- Apply a sequence of conditional `markDirty` calls in order. -/
def applyMarks (m : List (ChunkKey × Chunk)) : List (Bool × ChunkKey) →
    List (ChunkKey × Chunk)
  | [] => m
  | (b, k) :: rest => applyMarks (cond b (mapDirty m k) m) rest

/-- The JS local-coordinate computation `((w % 16) + 16) % 16`
(`%` is the truncating remainder). -/
def localCoord (w : Int) : Int := (w.tmod 16 + 16).tmod 16

/-- `WorldManager.getBlock`: world-space read; returns air when the
containing chunk is not materialized. -/
def WorldManager.getBlock (w : WorldManager) (wx wy wz : Int) : BlockType :=
  match findChunk w.chunks (wx.fdiv 16, wy.fdiv 16, wz.fdiv 16) with
  | none => BlockType.air
  | some c => c.getBlock (localCoord wx) (localCoord wy) (localCoord wz)

/-- `WorldManager.setBlock`: world-space write.  A write into an absent chunk
is silently dropped; otherwise the owning chunk is updated (and dirtied by
`Chunk.setBlock`) and each face-sharing neighbor on a touched chunk border is
marked dirty, in source order (−X, +X, −Y, +Y, −Z, +Z). -/
def WorldManager.setBlock (w : WorldManager) (wx wy wz : Int) (t : BlockType) :
    WorldManager :=
  let cx := wx.fdiv 16
  let cy := wy.fdiv 16
  let cz := wz.fdiv 16
  match findChunk w.chunks (cx, cy, cz) with
  | none => w
  | some chunk =>
    let lx := localCoord wx
    let ly := localCoord wy
    let lz := localCoord wz
    let m1 := setChunkAt w.chunks (cx, cy, cz) (chunk.setBlock lx ly lz t)
    { w with chunks := applyMarks m1 (
        [ (decide (lx = 0), (cx - 1, cy, cz)),
          (decide (lx = 15), (cx + 1, cy, cz)),
          (decide (ly = 0), (cx, cy - 1, cz)),
          (decide (ly = 15), (cx, cy + 1, cz)),
          (decide (lz = 0), (cx, cy, cz - 1)),
          (decide (lz = 15), (cx, cy, cz + 1)) ] ) }

/-- Insert a freshly generated chunk under a new key (`Map.set` appends). -/
def insertChunk (w : WorldManager) (oreDefs : List OreDef) (k : ChunkKey) :
    WorldManager :=
  { w with chunks := w.chunks ++ [(k, genChunkData w.seed oreDefs k.1 k.2.1 k.2.2)] }

/-- Generate the chunk at `k` if it is not yet materialized (the per-chunk
body of the admission loop, with no budget). -/
def materializeChunk (w : WorldManager) (oreDefs : List OreDef) (k : ChunkKey) :
    WorldManager :=
  match findChunk w.chunks k with
  | some _ => w
  | none => insertChunk w oreDefs k

/-- The blocks of the chunk materialized at `k`, if any. -/
def WorldManager.blocksAt (w : WorldManager) (k : ChunkKey) : Option (Nat → BlockType) :=
  (findChunk w.chunks k).map Chunk.blocks

/-- Integer range `[a, b]` as a list. -/
def rangeInts (a b : Int) : List Int :=
  (List.range (b + 1 - a).toNat).map fun i => a + i

/-- The needed chunk keys around player chunk `(pcx, _, pcz)`: a cylindrical
horizontal disc of radius `RENDER_DISTANCE` and the fixed vertical band from
`⌊-MAX_DEPTH_BLOCKS / CHUNK_SIZE⌋ - 1` up to `2`, in the admission loop's
iteration order. -/
def neededKeys (pcx pcz : Int) : List ChunkKey :=
  (rangeInts (-RENDER_DISTANCE) RENDER_DISTANCE).flatMap fun dx =>
    (rangeInts (-RENDER_DISTANCE) RENDER_DISTANCE).flatMap fun dz =>
      if dx * dx + dz * dz > RENDER_DISTANCE * RENDER_DISTANCE then []
      else
        (rangeInts (Int.fdiv (-MAX_DEPTH_BLOCKS) CHUNK_SIZE - 1) 2).map fun dy =>
          (pcx + dx, dy, pcz + dz)

/-- The chunk-admission loop: walk the needed keys carrying the world, the
count of chunks generated this call, and the pending-generation flag; an
absent key is generated unless a positive budget is exhausted. -/
def genLoop (oreDefs : List OreDef) (cap : Nat) :
    List ChunkKey → WorldManager → Nat → Bool → WorldManager × Nat × Bool
  | [], w, generated, pending => (w, generated, pending)
  | k :: rest, w, generated, pending =>
    if (findChunk w.chunks k).isSome then genLoop oreDefs cap rest w generated pending
    else if 0 < cap ∧ cap ≤ generated then
      genLoop oreDefs cap rest w generated true
    else
      genLoop oreDefs cap rest (insertChunk w oreDefs k) (generated + 1) pending

/-- The dirty-mesh rebuild loop: walk the chunk list carrying the rebuild
count and the pending-rebuilds flag; a dirty chunk beyond the budget is left
dirty and flags pending, otherwise its mesh is rebuilt (observable effect:
the dirty flag clears). -/
def rebuildLoop (maxRebuilds : Nat) :
    List (ChunkKey × Chunk) → Nat → Bool → List (ChunkKey × Chunk) × Bool
  | [], _, pending => ([], pending)
  | (k, c) :: rest, rebuilds, pending =>
    if c.dirty then
      if maxRebuilds ≤ rebuilds then
        let r := rebuildLoop maxRebuilds rest rebuilds true
        ((k, c) :: r.1, r.2)
      else
        let r := rebuildLoop maxRebuilds rest (rebuilds + 1) pending
        ((k, { c with dirty := false }) :: r.1, r.2)
    else
      let r := rebuildLoop maxRebuilds rest rebuilds pending
      ((k, c) :: r.1, r.2)

/-- `WorldManager.update(playerX, playerY, playerZ, maxChunksPerFrame)`:
admit the needed chunks around the player (budgeted when `cap > 0`), unload
chunks outside the needed set, then rebuild dirty meshes — capped at the
caller's budget when positive, else at 4.  Returns
`!pendingGeneration && !pendingRebuilds` together with the new world. -/
def WorldManager.update (w : WorldManager) (oreDefs : List OreDef)
    (px py pz : ℚ) (cap : Nat) : Bool × WorldManager :=
  let bx : Int := ⌊px / BLOCK_SIZE⌋
  let bz : Int := ⌊pz / BLOCK_SIZE⌋
  let keys := neededKeys (bx.fdiv 16) (bz.fdiv 16)
  let g := genLoop oreDefs cap keys w 0 false
  let w2 : WorldManager :=
    { g.1 with chunks := g.1.chunks.filter fun kv => decide (kv.1 ∈ keys) }
  let maxRebuilds := if 0 < cap then cap else 4
  let r := rebuildLoop maxRebuilds w2.chunks 0 false
  (!g.2.2 && !r.2, { w2 with chunks := r.1 })

/-! ## Helper lemmas: noise ranges -/

lemma i32bits_lt (n : Int) : i32bits n < 4294967296 := by
  unfold i32bits
  have h1 : 0 ≤ n.emod 4294967296 := Int.emod_nonneg n (by norm_num)
  have h2 : n.emod 4294967296 < 4294967296 := Int.emod_lt_of_pos n (by norm_num)
  omega

lemma hashFrac_mem {r : Nat} (h : r < 4294967296) :
    0 ≤ (r : ℚ) / 4294967295 ∧ (r : ℚ) / 4294967295 ≤ 1 := by
  constructor
  · positivity
  · rw [div_le_one (by norm_num)]
    have : (r : ℚ) ≤ 4294967295 := by exact_mod_cast Nat.le_of_lt_succ h
    linarith

lemma xor32_lt (a b : Nat) (ha : a < 4294967296) (hb : b < 4294967296) :
    Nat.xor a b < 4294967296 := by
  have h2 : (4294967296 : Nat) = 2 ^ 32 := by norm_num
  rw [h2] at ha hb ⊢
  exact Nat.xor_lt_two_pow ha hb

lemma hash2d_mem (x y seed : Int) : 0 ≤ hash2d x y seed ∧ hash2d x y seed ≤ 1 := by
  unfold hash2d
  exact hashFrac_mem (xor32_lt _ _ (i32bits_lt _) (i32bits_lt _))

lemma hash3d_mem (x y z seed : Int) : 0 ≤ hash3d x y z seed ∧ hash3d x y z seed ≤ 1 := by
  unfold hash3d
  exact hashFrac_mem (xor32_lt _ _ (i32bits_lt _) (i32bits_lt _))

lemma smoothstep_mem {t : ℚ} (h0 : 0 ≤ t) (h1 : t < 1) :
    0 ≤ smoothstep t ∧ smoothstep t ≤ 1 := by
  unfold smoothstep
  constructor
  · nlinarith
  · nlinarith [mul_nonneg (mul_self_nonneg (1 - t)) (by linarith : (0:ℚ) ≤ 1 + 2 * t)]

lemma lerp_mem {a b t : ℚ} (ha : 0 ≤ a ∧ a ≤ 1) (hb : 0 ≤ b ∧ b ≤ 1)
    (ht : 0 ≤ t ∧ t ≤ 1) : 0 ≤ lerp a b t ∧ lerp a b t ≤ 1 := by
  unfold lerp
  obtain ⟨ha0, ha1⟩ := ha
  obtain ⟨hb0, hb1⟩ := hb
  obtain ⟨ht0, ht1⟩ := ht
  constructor
  · nlinarith
  · nlinarith

lemma fract_smoothstep_mem (x : ℚ) :
    0 ≤ smoothstep (x - ⌊x⌋) ∧ smoothstep (x - ⌊x⌋) ≤ 1 :=
  smoothstep_mem (by linarith [Int.floor_le x]) (by linarith [Int.lt_floor_add_one x])

lemma noise2d_mem (x y : ℚ) (seed : Int) :
    0 ≤ noise2d x y seed ∧ noise2d x y seed ≤ 1 := by
  unfold noise2d
  exact lerp_mem
    (lerp_mem (hash2d_mem _ _ _) (hash2d_mem _ _ _) (fract_smoothstep_mem x))
    (lerp_mem (hash2d_mem _ _ _) (hash2d_mem _ _ _) (fract_smoothstep_mem x))
    (fract_smoothstep_mem y)

lemma noise3d_mem (x y z : ℚ) (seed : Int) :
    0 ≤ noise3d x y z seed ∧ noise3d x y z seed ≤ 1 := by
  unfold noise3d
  exact lerp_mem
    (lerp_mem
      (lerp_mem (hash3d_mem _ _ _ _) (hash3d_mem _ _ _ _) (fract_smoothstep_mem x))
      (lerp_mem (hash3d_mem _ _ _ _) (hash3d_mem _ _ _ _) (fract_smoothstep_mem x))
      (fract_smoothstep_mem y))
    (lerp_mem
      (lerp_mem (hash3d_mem _ _ _ _) (hash3d_mem _ _ _ _) (fract_smoothstep_mem x))
      (lerp_mem (hash3d_mem _ _ _ _) (hash3d_mem _ _ _ _) (fract_smoothstep_mem x))
      (fract_smoothstep_mem y))
    (fract_smoothstep_mem z)

/-- Loop invariant of `fbmAux`: with a positive gain, positive amplitude and
`0 ≤ value ≤ maxValue`, the final accumulators satisfy
`0 ≤ value ≤ maxValue`, and `maxValue` is strictly positive as soon as at
least one octave is processed. -/
lemma fbmAux_inv (x y : ℚ) (seed : Int) (lac gain : ℚ) (hg : 0 < gain) :
    ∀ (n i : Nat) (value amplitude frequency maxValue : ℚ),
      0 < amplitude → 0 ≤ value → value ≤ maxValue → 0 ≤ maxValue → 1 ≤ n →
      0 ≤ (fbmAux x y seed lac gain n i value amplitude frequency maxValue).1 ∧
      (fbmAux x y seed lac gain n i value amplitude frequency maxValue).1 ≤
        (fbmAux x y seed lac gain n i value amplitude frequency maxValue).2 ∧
      0 < (fbmAux x y seed lac gain n i value amplitude frequency maxValue).2 := by
  intro n
  induction n with
  | zero => intro i value amplitude frequency maxValue _ _ _ _ hn; omega
  | succ m ih =>
    intro i value amplitude frequency maxValue hamp hv0 hvm hm0 _
    have hnoise := noise2d_mem (x * frequency) (y * frequency) (seed + i * 1000)
    have hterm0 : 0 ≤ amplitude * noise2d (x * frequency) (y * frequency) (seed + i * 1000) := by
      exact mul_nonneg (le_of_lt hamp) hnoise.1
    have hterm1 : amplitude * noise2d (x * frequency) (y * frequency) (seed + i * 1000)
        ≤ amplitude := by
      nlinarith [hnoise.2]
    show 0 ≤ (fbmAux x y seed lac gain m (i+1) _ _ _ _).1 ∧ _
    cases Nat.eq_zero_or_pos m with
    | inl hm =>
      subst hm
      simp only [fbmAux]
      refine ⟨by linarith, by linarith, by linarith⟩
    | inr hm =>
      exact ih (i + 1) _ _ _ _ (mul_pos hamp hg) (by linarith) (by linarith)
        (by linarith) hm

/-! ## Claim C9: noise output ranges -/

/-- C9: for every input and seed, `noise2d` and `noise3d` return a value in
`[0, 1]`; and for octaves ≥ 1 with positive lacunarity and gain, `fbm2d`
(which normalizes by the total amplitude of its octaves) also returns a value
in `[0, 1]`. -/
theorem noise_and_fbm_range :
    (∀ (x y : ℚ) (seed : Int), 0 ≤ noise2d x y seed ∧ noise2d x y seed ≤ 1) ∧
    (∀ (x y z : ℚ) (seed : Int), 0 ≤ noise3d x y z seed ∧ noise3d x y z seed ≤ 1) ∧
    (∀ (x y : ℚ) (seed : Int) (octaves : Nat) (lacunarity gain : ℚ),
      1 ≤ octaves → 0 < lacunarity → 0 < gain →
      0 ≤ fbm2d x y seed octaves lacunarity gain ∧
        fbm2d x y seed octaves lacunarity gain ≤ 1) := by
  refine ⟨noise2d_mem, noise3d_mem, ?_⟩
  intro x y seed octaves lacunarity gain hoct _ hg
  have h := fbmAux_inv x y seed lacunarity gain hg octaves 0 0 1 1 0
    one_pos le_rfl le_rfl le_rfl hoct
  unfold fbm2d
  exact ⟨div_nonneg h.1 h.2.2.le, (div_le_one h.2.2).mpr h.2.1⟩

/-- Witness for `noise_and_fbm_range` at concrete inputs. -/
theorem noise_and_fbm_range_witness :
    1 ≤ 4 ∧ (0 : ℚ) < 2 ∧ (0 : ℚ) < 1 ∧
      (0 ≤ fbm2d 3 5 42 4 2 1 ∧ fbm2d 3 5 42 4 2 1 ≤ 1) ∧
      (0 ≤ noise2d 3 5 42 ∧ noise2d 3 5 42 ≤ 1) ∧
      (0 ≤ noise3d 3 5 7 42 ∧ noise3d 3 5 7 42 ≤ 1) :=
  ⟨by decide, by decide, by decide,
    noise_and_fbm_range.2.2 3 5 42 4 2 1 (by decide) (by decide) (by decide),
    noise_and_fbm_range.1 3 5 42,
    noise_and_fbm_range.2.1 3 5 7 42⟩

/-! ## Claim C5: depth floor invariant -/

/-- C5: every generated cell whose world block `y` coordinate is at or below
`-MAX_DEPTH_BLOCKS` holds the indestructible bedrock code, for every seed,
every ore table and every chunk, regardless of any noise output. -/
theorem genChunk_depth_floor (seed : Int) (oreDefs : List OreDef) (cx cy cz : Int)
    (i : Nat) (hi : i < 4096)
    (hby : (cy * 16 + (i / 16 % 16 : Nat) : Int) ≤ -MAX_DEPTH_BLOCKS) :
    (genChunkData seed oreDefs cx cy cz).blocks i = BlockType.bedrock := by
  show (if i < 4096 then
      genCell seed oreDefs cx cy cz (i % 16) (i / 16 % 16) (i / 256)
    else BlockType.air) = BlockType.bedrock
  rw [if_pos hi]
  unfold genCell
  rw [if_pos hby]

/-- Witness for `genChunk_depth_floor`: cell 0 of chunk `(0, -7, 0)` has
`by = -112 ≤ -100`. -/
theorem genChunk_depth_floor_witness :
    (genChunkData 0 [] 0 (-7) 0).blocks 0 = BlockType.bedrock :=
  genChunk_depth_floor 0 [] 0 (-7) 0 0 (by decide) (by decide)

/-! ## Claim C10: out-of-range local writes are dropped -/

/-- C10: a `Chunk.setBlock` with any local coordinate outside `[0, 16)`
leaves the chunk completely unchanged — in particular the block array is not
written and the dirty flag keeps its previous value. -/
theorem chunk_setBlock_out_of_range (c : Chunk) (x y z : Int) (t : BlockType)
    (h : x < 0 ∨ 16 ≤ x ∨ y < 0 ∨ 16 ≤ y ∨ z < 0 ∨ 16 ≤ z) :
    c.setBlock x y z t = c := by
  unfold Chunk.setBlock
  rw [if_pos h]

/-- Witness for `chunk_setBlock_out_of_range`: a rejected write into a clean
chunk leaves it clean. -/
theorem chunk_setBlock_out_of_range_witness :
    Chunk.setBlock ⟨0, 0, 0, fun _ => BlockType.air, false⟩ 16 2 3 BlockType.stone
        = ⟨0, 0, 0, fun _ => BlockType.air, false⟩ ∧
      (Chunk.setBlock ⟨0, 0, 0, fun _ => BlockType.air, false⟩ 16 2 3
          BlockType.stone).dirty = false := by
  have h := chunk_setBlock_out_of_range ⟨0, 0, 0, fun _ => BlockType.air, false⟩
    16 2 3 BlockType.stone (by decide)
  exact ⟨h, by rw [h]⟩

/-! ## Claim C7: reads outside materialized chunks return air -/

/-- C7: `WorldManager.getBlock` at a world coordinate whose containing chunk
is not in the chunk map returns the air type (the function is total — there
is no error path). -/
theorem world_getBlock_unmaterialized (w : WorldManager) (wx wy wz : Int)
    (h : findChunk w.chunks (wx.fdiv 16, wy.fdiv 16, wz.fdiv 16) = none) :
    w.getBlock wx wy wz = BlockType.air := by
  unfold WorldManager.getBlock
  rw [h]

/-- Witness for `world_getBlock_unmaterialized`: a world holding only the
chunk at `(3, 0, 0)` reads air at origin. -/
theorem world_getBlock_unmaterialized_witness :
    WorldManager.getBlock
      ⟨1, [((3, 0, 0), ⟨3, 0, 0, fun _ => BlockType.stone, false⟩)]⟩ 0 0 0
      = BlockType.air :=
  world_getBlock_unmaterialized _ 0 0 0 (by rfl)

/-! ## Claim C8: writes outside materialized chunks are silent no-ops -/

/-- C8: `WorldManager.setBlock` at a world coordinate whose containing chunk
is not materialized returns with the entire world state unchanged (no chunk
created, no block array or dirty flag altered), and a subsequent `getBlock`
there still reads air. -/
theorem world_setBlock_unmaterialized (w : WorldManager) (wx wy wz : Int)
    (t : BlockType)
    (h : findChunk w.chunks (wx.fdiv 16, wy.fdiv 16, wz.fdiv 16) = none) :
    w.setBlock wx wy wz t = w ∧
      (w.setBlock wx wy wz t).getBlock wx wy wz = BlockType.air := by
  have hs : w.setBlock wx wy wz t = w := by
    simp only [WorldManager.setBlock, h]
  refine ⟨hs, ?_⟩
  rw [hs]
  unfold WorldManager.getBlock
  rw [h]

/-- Witness for `world_setBlock_unmaterialized`: writing stone at origin of a
world holding only the chunk at `(3, 0, 0)` changes nothing and reads air. -/
theorem world_setBlock_unmaterialized_witness :
    WorldManager.setBlock
        ⟨1, [((3, 0, 0), ⟨3, 0, 0, fun _ => BlockType.stone, false⟩)]⟩ 0 0 0
        BlockType.stone
      = ⟨1, [((3, 0, 0), ⟨3, 0, 0, fun _ => BlockType.stone, false⟩)]⟩ ∧
      (WorldManager.setBlock
        ⟨1, [((3, 0, 0), ⟨3, 0, 0, fun _ => BlockType.stone, false⟩)]⟩ 0 0 0
        BlockType.stone).getBlock 0 0 0 = BlockType.air :=
  world_setBlock_unmaterialized _ 0 0 0 BlockType.stone (by rfl)

/-! ## Claim C1: deterministic chunk generation -/

lemma findChunk_append_none {m : List (ChunkKey × Chunk)} {q : ChunkKey}
    (h : findChunk m q = none) (l : List (ChunkKey × Chunk)) :
    findChunk (m ++ l) q = findChunk l q := by
  induction m with
  | nil => rfl
  | cons kv rest ih =>
    obtain ⟨k, c⟩ := kv
    by_cases hk : k = q
    · simp only [findChunk, if_pos hk] at h
      exact absurd h (by simp)
    · simp only [findChunk, if_neg hk] at h ⊢
      exact ih h

lemma blocksAt_materialize {w : WorldManager} (oreDefs : List OreDef) {k : ChunkKey}
    (h : findChunk w.chunks k = none) :
    (materializeChunk w oreDefs k).blocksAt k =
      some (genChunkData w.seed oreDefs k.1 k.2.1 k.2.2).blocks := by
  unfold materializeChunk
  rw [h]
  unfold insertChunk WorldManager.blocksAt
  rw [findChunk_append_none h]
  simp [findChunk]

/-- C1: generating the chunk at a coordinate `k` is a pure function of the
world seed and `k`: in any two worlds with the same seed — regardless of
which other chunks are already materialized or in what order they were
generated — materializing `k` stores the same block array, namely the one
computed cell-by-cell from the seed alone.  In particular regenerating `k`
after an unload (which removes it from the map) reproduces it exactly. -/
theorem generateChunk_deterministic (w1 w2 : WorldManager) (oreDefs : List OreDef)
    (k : ChunkKey) (hseed : w1.seed = w2.seed)
    (h1 : findChunk w1.chunks k = none) (h2 : findChunk w2.chunks k = none) :
    (materializeChunk w1 oreDefs k).blocksAt k
        = (materializeChunk w2 oreDefs k).blocksAt k ∧
      (materializeChunk w1 oreDefs k).blocksAt k
        = some (genChunkData w1.seed oreDefs k.1 k.2.1 k.2.2).blocks := by
  have e1 := blocksAt_materialize oreDefs h1
  have e2 := blocksAt_materialize oreDefs h2
  refine ⟨?_, e1⟩
  rw [e1, e2, hseed]

/-- Witness for `generateChunk_deterministic`: an empty world and a world
already holding a neighboring chunk, with the same seed. -/
theorem generateChunk_deterministic_witness :
    (materializeChunk ⟨7, []⟩ [] (0, 0, 0)).blocksAt (0, 0, 0)
        = (materializeChunk
            ⟨7, [((1, 0, 0), ⟨1, 0, 0, fun _ => BlockType.stone, false⟩)]⟩ []
            (0, 0, 0)).blocksAt (0, 0, 0) ∧
      (materializeChunk ⟨7, []⟩ [] (0, 0, 0)).blocksAt (0, 0, 0)
        = some (genChunkData 7 [] 0 0 0).blocks :=
  generateChunk_deterministic ⟨7, []⟩
    ⟨7, [((1, 0, 0), ⟨1, 0, 0, fun _ => BlockType.stone, false⟩)]⟩ [] (0, 0, 0)
    rfl (by rfl) (by rfl)

/-! ## Claim C3: border writes dirty the face-sharing neighbor -/

lemma findChunk_cons (k0 : ChunkKey) (c0 : Chunk) (rest : List (ChunkKey × Chunk))
    (q : ChunkKey) :
    findChunk ((k0, c0) :: rest) q = if k0 = q then some c0 else findChunk rest q := rfl

lemma findChunk_setChunkAt_ne {m : List (ChunkKey × Chunk)} {k q : ChunkKey}
    (hne : q ≠ k) (c : Chunk) : findChunk (setChunkAt m k c) q = findChunk m q := by
  induction m with
  | nil => rfl
  | cons kv rest ih =>
    obtain ⟨k0, c0⟩ := kv
    by_cases hk : k0 = k
    · have hs : setChunkAt ((k0, c0) :: rest) k c = (k0, c) :: setChunkAt rest k c := by
        simp [setChunkAt, hk]
      have hq : ¬k0 = q := fun h => hne (h ▸ hk ▸ rfl : q = k)
      rw [hs, findChunk_cons, findChunk_cons, if_neg hq, if_neg hq]
      exact ih
    · have hs : setChunkAt ((k0, c0) :: rest) k c = (k0, c0) :: setChunkAt rest k c := by
        simp [setChunkAt, hk]
      rw [hs, findChunk_cons, findChunk_cons]
      by_cases hq : k0 = q
      · rw [if_pos hq, if_pos hq]
      · rw [if_neg hq, if_neg hq]
        exact ih

lemma findChunk_mapDirty_self {m : List (ChunkKey × Chunk)} {q : ChunkKey} {c : Chunk}
    (h : findChunk m q = some c) :
    findChunk (mapDirty m q) q = some { c with dirty := true } := by
  induction m with
  | nil => exact absurd h (by simp [findChunk])
  | cons kv rest ih =>
    obtain ⟨k0, c0⟩ := kv
    by_cases hq : k0 = q
    · rw [findChunk_cons, if_pos hq] at h
      have hs : mapDirty ((k0, c0) :: rest) q
          = (k0, { c0 with dirty := true }) :: mapDirty rest q := by
        simp [mapDirty, hq]
      rw [hs, findChunk_cons, if_pos hq]
      rw [Option.some_inj] at h
      rw [h]
    · rw [findChunk_cons, if_neg hq] at h
      have hs : mapDirty ((k0, c0) :: rest) q = (k0, c0) :: mapDirty rest q := by
        simp [mapDirty, hq]
      rw [hs, findChunk_cons, if_neg hq]
      exact ih h

lemma findChunk_mapDirty_ne {m : List (ChunkKey × Chunk)} {k q : ChunkKey}
    (hne : k ≠ q) : findChunk (mapDirty m k) q = findChunk m q := by
  induction m with
  | nil => rfl
  | cons kv rest ih =>
    obtain ⟨k0, c0⟩ := kv
    by_cases hk : k0 = k
    · have hs : mapDirty ((k0, c0) :: rest) k
          = (k0, { c0 with dirty := true }) :: mapDirty rest k := by
        simp [mapDirty, hk]
      have hq : ¬k0 = q := fun h => hne (hk ▸ h)
      rw [hs, findChunk_cons, findChunk_cons, if_neg hq, if_neg hq]
      exact ih
    · have hs : mapDirty ((k0, c0) :: rest) k = (k0, c0) :: mapDirty rest k := by
        simp [mapDirty, hk]
      rw [hs, findChunk_cons, findChunk_cons]
      by_cases hq : k0 = q
      · rw [if_pos hq, if_pos hq]
      · rw [if_neg hq, if_neg hq]
        exact ih

/-- Marking only ever raises dirty flags: after a sequence of conditional
`markDirty` calls, the chunk stored at `q` is the original one with its
dirty flag or-ed with "some enabled mark targeted `q`". -/
lemma applyMarks_find :
    ∀ (ms : List (Bool × ChunkKey)) (m : List (ChunkKey × Chunk)) (q : ChunkKey)
      (c : Chunk), findChunk m q = some c →
      findChunk (applyMarks m ms) q =
        some { c with dirty := c.dirty || ms.any fun p => p.1 && decide (p.2 = q) } := by
  intro ms
  induction ms with
  | nil =>
    intro m q c h
    simpa [applyMarks]
  | cons p rest ih =>
    intro m q c h
    obtain ⟨b, k⟩ := p
    cases b with
    | false =>
      show findChunk (applyMarks m rest) q = _
      rw [ih m q c h]
      simp
    | true =>
      show findChunk (applyMarks (mapDirty m k) rest) q = _
      by_cases hk : k = q
      · subst hk
        rw [ih _ _ _ (findChunk_mapDirty_self h)]
        simp
      · rw [ih _ _ _ (by rw [findChunk_mapDirty_ne hk]; exact h)]
        simp [hk]

lemma setBlock_neighbor_dirty_aux {w : WorldManager} {wx wy wz : Int} {t : BlockType}
    {ch : Chunk}
    (hch : findChunk w.chunks (wx.fdiv 16, wy.fdiv 16, wz.fdiv 16) = some ch)
    (q : ChunkKey) (nb : Chunk)
    (hq : q ≠ (wx.fdiv 16, wy.fdiv 16, wz.fdiv 16))
    (hnb : findChunk w.chunks q = some nb)
    (hany : ([ (decide (localCoord wx = 0), (wx.fdiv 16 - 1, wy.fdiv 16, wz.fdiv 16)),
        (decide (localCoord wx = 15), (wx.fdiv 16 + 1, wy.fdiv 16, wz.fdiv 16)),
        (decide (localCoord wy = 0), (wx.fdiv 16, wy.fdiv 16 - 1, wz.fdiv 16)),
        (decide (localCoord wy = 15), (wx.fdiv 16, wy.fdiv 16 + 1, wz.fdiv 16)),
        (decide (localCoord wz = 0), (wx.fdiv 16, wy.fdiv 16, wz.fdiv 16 - 1)),
        (decide (localCoord wz = 15), (wx.fdiv 16, wy.fdiv 16, wz.fdiv 16 + 1)) ]
        : List (Bool × ChunkKey)).any (fun p => p.1 && decide (p.2 = q)) = true) :
    findChunk (w.setBlock wx wy wz t).chunks q = some { nb with dirty := true } := by
  simp only [WorldManager.setBlock, hch]
  rw [applyMarks_find _ _ _ _ (by rw [findChunk_setChunkAt_ne hq]; exact hnb)]
  rw [hany, Bool.or_true]

/-- C3: a world-manager `setBlock` into a materialized chunk that touches a
chunk face marks the face-sharing materialized neighbor chunk dirty: local
index 0 on an axis dirties the `−1` neighbor on that axis and local index
`S − 1 = 15` dirties the `+1` neighbor, on each of the three axes. -/
theorem world_setBlock_dirties_neighbors (w : WorldManager) (wx wy wz : Int)
    (t : BlockType) (ch : Chunk)
    (hch : findChunk w.chunks (wx.fdiv 16, wy.fdiv 16, wz.fdiv 16) = some ch) :
    (∀ nb, localCoord wx = 0 →
      findChunk w.chunks (wx.fdiv 16 - 1, wy.fdiv 16, wz.fdiv 16) = some nb →
      findChunk (w.setBlock wx wy wz t).chunks (wx.fdiv 16 - 1, wy.fdiv 16, wz.fdiv 16)
        = some { nb with dirty := true }) ∧
    (∀ nb, localCoord wx = 15 →
      findChunk w.chunks (wx.fdiv 16 + 1, wy.fdiv 16, wz.fdiv 16) = some nb →
      findChunk (w.setBlock wx wy wz t).chunks (wx.fdiv 16 + 1, wy.fdiv 16, wz.fdiv 16)
        = some { nb with dirty := true }) ∧
    (∀ nb, localCoord wy = 0 →
      findChunk w.chunks (wx.fdiv 16, wy.fdiv 16 - 1, wz.fdiv 16) = some nb →
      findChunk (w.setBlock wx wy wz t).chunks (wx.fdiv 16, wy.fdiv 16 - 1, wz.fdiv 16)
        = some { nb with dirty := true }) ∧
    (∀ nb, localCoord wy = 15 →
      findChunk w.chunks (wx.fdiv 16, wy.fdiv 16 + 1, wz.fdiv 16) = some nb →
      findChunk (w.setBlock wx wy wz t).chunks (wx.fdiv 16, wy.fdiv 16 + 1, wz.fdiv 16)
        = some { nb with dirty := true }) ∧
    (∀ nb, localCoord wz = 0 →
      findChunk w.chunks (wx.fdiv 16, wy.fdiv 16, wz.fdiv 16 - 1) = some nb →
      findChunk (w.setBlock wx wy wz t).chunks (wx.fdiv 16, wy.fdiv 16, wz.fdiv 16 - 1)
        = some { nb with dirty := true }) ∧
    (∀ nb, localCoord wz = 15 →
      findChunk w.chunks (wx.fdiv 16, wy.fdiv 16, wz.fdiv 16 + 1) = some nb →
      findChunk (w.setBlock wx wy wz t).chunks (wx.fdiv 16, wy.fdiv 16, wz.fdiv 16 + 1)
        = some { nb with dirty := true }) := by
  refine ⟨?_, ?_, ?_, ?_, ?_, ?_⟩ <;> intro nb h0 hnb <;>
    refine setBlock_neighbor_dirty_aux hch _ nb
      (by simp only [ne_eq, Prod.mk.injEq]; omega) hnb (List.any_eq_true.mpr ?_)
  · exact ⟨(decide (localCoord wx = 0),
      (wx.fdiv 16 - 1, wy.fdiv 16, wz.fdiv 16)), by simp, by simp [h0]⟩
  · exact ⟨(decide (localCoord wx = 15),
      (wx.fdiv 16 + 1, wy.fdiv 16, wz.fdiv 16)), by simp, by simp [h0]⟩
  · exact ⟨(decide (localCoord wy = 0),
      (wx.fdiv 16, wy.fdiv 16 - 1, wz.fdiv 16)), by simp, by simp [h0]⟩
  · exact ⟨(decide (localCoord wy = 15),
      (wx.fdiv 16, wy.fdiv 16 + 1, wz.fdiv 16)), by simp, by simp [h0]⟩
  · exact ⟨(decide (localCoord wz = 0),
      (wx.fdiv 16, wy.fdiv 16, wz.fdiv 16 - 1)), by simp, by simp [h0]⟩
  · exact ⟨(decide (localCoord wz = 15),
      (wx.fdiv 16, wy.fdiv 16, wz.fdiv 16 + 1)), by simp, by simp [h0]⟩

/-- Witness for `world_setBlock_dirties_neighbors`: writing at world block
`(0, 5, 5)` (local X index 0 of chunk `(0,0,0)`) dirties the materialized
neighbor chunk `(-1, 0, 0)`. -/
theorem world_setBlock_dirties_neighbors_witness :
    findChunk (WorldManager.setBlock
        ⟨1, [((0, 0, 0), ⟨0, 0, 0, fun _ => BlockType.air, false⟩),
             ((-1, 0, 0), ⟨-1, 0, 0, fun _ => BlockType.air, false⟩)]⟩ 0 5 5
        BlockType.stone).chunks ((0 : Int).fdiv 16 - 1, (5 : Int).fdiv 16, (5 : Int).fdiv 16)
      = some { cx := -1, cy := 0, cz := 0, blocks := fun _ => BlockType.air,
               dirty := true } :=
  (world_setBlock_dirties_neighbors
      ⟨1, [((0, 0, 0), ⟨0, 0, 0, fun _ => BlockType.air, false⟩),
           ((-1, 0, 0), ⟨-1, 0, 0, fun _ => BlockType.air, false⟩)]⟩ 0 5 5
      BlockType.stone ⟨0, 0, 0, fun _ => BlockType.air, false⟩ (by rfl)).1
    ⟨-1, 0, 0, fun _ => BlockType.air, false⟩ (by decide) (by rfl)

/-! ## Claim C6: ore tier precedence -/

lemma selectOre_cons (o : OreDef) (rest : List OreDef) (seed bx by' bz dl : Int) :
    selectOre (o :: rest) seed bx by' bz dl =
      if dl < o.minDepth ∨ dl > o.maxDepth then selectOre rest seed bx by' bz dl
      else if noise3d (bx * (3/20)) (by' * (3/20)) (bz * (3/20)) (seed + o.tier * 7919)
          > 1 - o.rarity * 2 then o.blockType
      else selectOre rest seed bx by' bz dl := by
  rw [selectOre]

/-- C6: the ore placement loop consults the definitions in list order and
places the block type of the first definition whose depth band contains the
cell's depth level and whose tier-salted 3D noise sample exceeds its
rarity-derived threshold (`selectOre` agrees with `List.find?` over
`oreMatches`); in particular when two definitions both match, the earlier
(lower-tier) one wins, whatever follows it in the list. -/
theorem selectOre_tier_precedence :
    (∀ (od : List OreDef) (seed bx by' bz dl : Int),
      selectOre od seed bx by' bz dl =
        ((od.find? fun o => decide (oreMatches seed bx by' bz dl o)).map
          OreDef.blockType).getD BlockType.stone) ∧
    (∀ (seed bx by' bz dl : Int) (pre : List OreDef) (o1 : OreDef)
        (mid : List OreDef) (o2 : OreDef) (post : List OreDef),
      (∀ p ∈ pre, ¬oreMatches seed bx by' bz dl p) →
      oreMatches seed bx by' bz dl o1 → oreMatches seed bx by' bz dl o2 →
      selectOre (pre ++ o1 :: (mid ++ o2 :: post)) seed bx by' bz dl
        = o1.blockType) := by
  constructor
  · intro od seed bx by' bz dl
    induction od with
    | nil => rfl
    | cons o rest ih =>
      rw [selectOre_cons]
      by_cases hband : dl < o.minDepth ∨ dl > o.maxDepth
      · have hf : (decide (oreMatches seed bx by' bz dl o)) = false := by
          simp only [decide_eq_false_iff_not, oreMatches]
          intro hm
          rcases hband with hb | hb
          · exact absurd hm.1 (by omega)
          · exact absurd hm.2.1 (by omega)
        rw [if_pos hband, List.find?_cons_of_neg _ (by simp [hf]), ih]
      · by_cases hn : noise3d (bx * (3/20)) (by' * (3/20)) (bz * (3/20))
            (seed + o.tier * 7919) > 1 - o.rarity * 2
        · have ht : (decide (oreMatches seed bx by' bz dl o)) = true := by
            simp only [decide_eq_true_eq, oreMatches]
            exact ⟨by omega, by omega, hn⟩
          rw [if_neg hband, if_pos hn, List.find?_cons_of_pos _ (by simp [ht])]
          rfl
        · have hf : (decide (oreMatches seed bx by' bz dl o)) = false := by
            simp only [decide_eq_false_iff_not, oreMatches]
            intro hm
            exact hn hm.2.2
          rw [if_neg hband, if_neg hn, List.find?_cons_of_neg _ (by simp [hf]), ih]
  · intro seed bx by' bz dl pre o1 mid o2 post hpre hm1 _
    obtain ⟨h1a, h1b, h1c⟩ := hm1
    induction pre with
    | nil =>
      show selectOre (o1 :: (mid ++ o2 :: post)) seed bx by' bz dl = o1.blockType
      rw [selectOre_cons, if_neg (by omega : ¬(dl < o1.minDepth ∨ dl > o1.maxDepth)),
        if_pos h1c]
    | cons p pre' ih =>
      have hp := hpre p (by simp)
      have hstep : selectOre ((p :: pre') ++ o1 :: (mid ++ o2 :: post)) seed bx by' bz dl
          = selectOre (pre' ++ o1 :: (mid ++ o2 :: post)) seed bx by' bz dl := by
        show selectOre (p :: (pre' ++ o1 :: (mid ++ o2 :: post))) seed bx by' bz dl = _
        rw [selectOre_cons]
        by_cases hband : dl < p.minDepth ∨ dl > p.maxDepth
        · rw [if_pos hband]
        · rw [if_neg hband, if_neg (fun hn => hp ⟨by omega, by omega, hn⟩)]
      rw [hstep]
      exact ih fun q hq => hpre q (by simp [hq])

/-- Witness for `selectOre_tier_precedence`: two ore definitions (tiers 1 and
2, rarity 1 so the noise threshold `1 - 2 = -1` is always exceeded) both
match the cell, and the earlier one's block type is placed. -/
theorem selectOre_tier_precedence_witness :
    oreMatches 42 3 (-20) 5 10 ⟨10, 1, 0, 10, 1⟩ ∧
      oreMatches 42 3 (-20) 5 10 ⟨11, 2, 0, 10, 1⟩ ∧
      selectOre [⟨10, 1, 0, 10, 1⟩, ⟨11, 2, 0, 10, 1⟩] 42 3 (-20) 5 10 = 10 := by
  have hm1 : oreMatches 42 3 (-20) 5 10 ⟨10, 1, 0, 10, 1⟩ :=
    ⟨by decide, by decide,
      lt_of_lt_of_le (by norm_num) (noise3d_mem (3 * (3/20)) ((-20) * (3/20))
        (5 * (3/20)) (42 + 1 * 7919)).1⟩
  have hm2 : oreMatches 42 3 (-20) 5 10 ⟨11, 2, 0, 10, 1⟩ :=
    ⟨by decide, by decide,
      lt_of_lt_of_le (by norm_num) (noise3d_mem (3 * (3/20)) ((-20) * (3/20))
        (5 * (3/20)) (42 + 2 * 7919)).1⟩
  exact ⟨hm1, hm2,
    selectOre_tier_precedence.2 42 3 (-20) 5 10 [] ⟨10, 1, 0, 10, 1⟩ []
      ⟨11, 2, 0, 10, 1⟩ [] (by simp) hm1 hm2⟩

/-! ## Claim C2: face-culling invariant of `buildMesh` -/

lemma flatMap_eq_nil_of {α β : Type} {l : List α} {f : α → List β}
    (h : ∀ a ∈ l, f a = []) : l.flatMap f = [] := by
  induction l with
  | nil => rfl
  | cons a rest ih =>
    rw [List.flatMap_cons, h a (by simp), List.nil_append]
    exact ih fun b hb => h b (by simp [hb])

lemma flatMap_length_const {α β : Type} {l : List α} {f : α → List β} (k : Nat)
    (h : ∀ a ∈ l, (f a).length = k) : (l.flatMap f).length = k * l.length := by
  induction l with
  | nil => simp
  | cons a rest ih =>
    rw [List.flatMap_cons, List.length_append, h a (by simp),
      ih fun b hb => h b (by simp [hb])]
    simp [List.length_cons, Nat.mul_succ, Nat.add_comm]

lemma flatMap_range_length_single {β : Type} (n i0 v : Nat) (f : Nat → List β) :
    i0 < n → (∀ a, a < n → (f a).length = if a = i0 then v else 0) →
    ((List.range n).flatMap f).length = v := by
  induction n with
  | zero => intro hi _; omega
  | succ m ih =>
    intro hi h
    rw [List.range_succ, List.flatMap_append, List.length_append]
    by_cases hm : i0 = m
    · subst hm
      have hz : ((List.range i0).flatMap f).length = 0 := by
        rw [List.length_flatMap]
        refine List.sum_eq_zero fun x hx => ?_
        simp only [List.map_map, List.mem_map] at hx
        obtain ⟨a, ha, hax⟩ := hx
        have := h a (by exact Nat.lt_succ_of_lt (List.mem_range.mp ha))
        rw [if_neg (Nat.ne_of_lt (List.mem_range.mp ha))] at this
        simp only [Function.comp] at hax
        omega
      rw [hz]
      simp [h i0 (Nat.lt_succ_self i0)]
    · have hlt : i0 < m := by omega
      rw [ih hlt fun a ha => h a (Nat.lt_succ_of_lt ha)]
      have : (f m).length = 0 := by
        have := h m (Nat.lt_succ_self m)
        rwa [if_neg fun hc => hm hc.symm] at this
      simp [this]

lemma flatMap_range_length_zero {β : Type} {n : Nat} {f : Nat → List β}
    (h : ∀ a, a < n → (f a).length = 0) : ((List.range n).flatMap f).length = 0 := by
  rw [List.length_flatMap]
  refine List.sum_eq_zero fun x hx => ?_
  simp only [List.map_map, List.mem_map] at hx
  obtain ⟨a, ha, hax⟩ := hx
  have := h a (List.mem_range.mp ha)
  simp only [Function.comp] at hax
  omega

lemma cellFaces_subset_faceList {c : Chunk} {defs : BlockType → Option BlockDef}
    {lookup : Int → Int → Int → BlockType} {x y z : Nat} :
    ∀ f ∈ cellFaces c defs lookup x y z, f ∈ faceList := by
  intro f hf
  simp only [cellFaces] at hf
  split at hf
  · exact absurd hf (by simp)
  · split at hf
    · exact List.mem_of_mem_filter hf
    · exact absurd hf (by simp)

/-- In a uniformly solid, opaque chunk whose out-of-chunk lookups all report
solid opaque registered blocks, no cell emits any face. -/
lemma cellFaces_all_solid_nil {c : Chunk} {defs : BlockType → Option BlockDef}
    {lookup : Int → Int → Int → BlockType} {t : BlockType} {d : BlockDef}
    (hdef : defs t = some d) (htr : d.transparent = false)
    (htair : t ≠ BlockType.air)
    (hblocks : ∀ i, c.blocks i = t)
    (hlook : ∀ wx wy wz, lookup wx wy wz ≠ BlockType.air ∧
      ∃ nd, defs (lookup wx wy wz) = some nd ∧ nd.transparent = false)
    (x y z : Nat) : cellFaces c defs lookup x y z = [] := by
  simp only [cellFaces]
  rw [hblocks, if_neg htair, hdef]
  simp only [Option.map_some', Option.getD_some]
  by_cases hs : d.solid = true
  · rw [if_pos hs]
    refine List.filter_eq_nil_iff.mpr fun f _ => ?_
    simp only [Bool.not_eq_true]
    simp only [Chunk.getBlockOrNeighbor]
    split
    · rw [hblocks]
      simp only [emitFace]
      rw [if_neg htair, hdef]
      simp only [Option.map_some', Option.getD_some]
      exact htr
    · obtain ⟨hna, nd, hnd, hndt⟩ :=
        hlook (c.cx * 16 + (↑x + f.dx)) (c.cy * 16 + (↑y + f.dy)) (c.cz * 16 + (↑z + f.dz))
      simp only [emitFace]
      rw [if_neg hna, hnd]
      simp only [Option.map_some', Option.getD_some]
      exact hndt
  · rw [if_neg hs]

/-- In a chunk holding a single block, every other cell is air and emits
nothing. -/
lemma cellFaces_single_off {c : Chunk} {defs : BlockType → Option BlockDef}
    {lookup : Int → Int → Int → BlockType} {t : BlockType} {x0 y0 z0 : Nat}
    (hblocks : ∀ i, c.blocks i = if i = x0 + 16 * y0 + 256 * z0 then t
      else BlockType.air)
    {x y z : Nat} (hne : ¬(x = x0 ∧ y = y0 ∧ z = z0))
    (hx : x < 16) (hy : y < 16) (hz : z < 16)
    (hx0 : x0 < 16) (hy0 : y0 < 16) (hz0 : z0 < 16) :
    cellFaces c defs lookup x y z = [] := by
  simp only [cellFaces]
  rw [hblocks, if_neg (by omega : ¬(x + y * 16 + z * 256 = x0 + 16 * y0 + 256 * z0))]
  rw [if_pos rfl]

/-- The single solid registered block of an otherwise-air chunk with
air-reporting neighbor lookups emits all six faces. -/
lemma cellFaces_single_target {c : Chunk} {defs : BlockType → Option BlockDef}
    {lookup : Int → Int → Int → BlockType} {t : BlockType} {d : BlockDef}
    {x0 y0 z0 : Nat}
    (hdef : defs t = some d) (hsolid : d.solid = true) (htair : t ≠ BlockType.air)
    (hblocks : ∀ i, c.blocks i = if i = x0 + 16 * y0 + 256 * z0 then t
      else BlockType.air)
    (hlook : ∀ wx wy wz, lookup wx wy wz = BlockType.air)
    (hx0 : x0 < 16) (hy0 : y0 < 16) (hz0 : z0 < 16) :
    cellFaces c defs lookup x0 y0 z0 = faceList := by
  simp only [cellFaces]
  rw [hblocks, if_pos (by omega : x0 + y0 * 16 + z0 * 256 = x0 + 16 * y0 + 256 * z0)]
  rw [if_neg htair, hdef]
  simp only [Option.map_some', Option.getD_some]
  rw [if_pos hsolid]
  refine List.filter_eq_self.mpr fun f hf => ?_
  fin_cases hf <;>
    · simp only [Chunk.getBlockOrNeighbor]
      split
      · rw [hblocks, if_neg (by omega)]
        simp [emitFace]
      · rw [hlook]
        simp [emitFace]

lemma chunkQuads_face_mem {c : Chunk} {defs : BlockType → Option BlockDef}
    {lookup : Int → Int → Int → BlockType} {q : (Nat × Nat × Nat) × Face}
    (hq : q ∈ chunkQuads c defs lookup) : q.2 ∈ faceList := by
  simp only [chunkQuads, List.mem_flatMap] at hq
  obtain ⟨z, _, y, _, x, _, hx⟩ := hq
  simp only [cellQuads, List.mem_map] at hx
  obtain ⟨f, hf, rfl⟩ := hx
  exact cellFaces_subset_faceList f hf

/-- C2: `buildMesh` emits a face only where a solid block borders an air or
transparent neighbor.  A chunk filled with one solid opaque registered block
type whose neighbor lookups all report solid opaque registered blocks emits
zero faces; a chunk holding exactly one solid registered block (all other
cells air) with air-reporting neighbor lookups emits exactly 6 faces, i.e.
24 vertices and 12 triangles. -/
theorem buildMesh_face_culling :
    (∀ (c : Chunk) (defs : BlockType → Option BlockDef)
        (lookup : Int → Int → Int → BlockType) (t : BlockType) (d : BlockDef),
      defs t = some d → d.solid = true → d.transparent = false →
      t ≠ BlockType.air →
      (∀ i, c.blocks i = t) →
      (∀ wx wy wz, lookup wx wy wz ≠ BlockType.air ∧
        ∃ nd, defs (lookup wx wy wz) = some nd ∧ nd.transparent = false) →
      (chunkQuads c defs lookup).length = 0) ∧
    (∀ (c : Chunk) (defs : BlockType → Option BlockDef)
        (lookup : Int → Int → Int → BlockType) (t : BlockType) (d : BlockDef)
        (x0 y0 z0 : Nat),
      x0 < 16 → y0 < 16 → z0 < 16 →
      defs t = some d → d.solid = true → t ≠ BlockType.air →
      (∀ i, c.blocks i = if i = x0 + 16 * y0 + 256 * z0 then t
        else BlockType.air) →
      (∀ wx wy wz, lookup wx wy wz = BlockType.air) →
      (chunkQuads c defs lookup).length = 6 ∧
        (buildMeshData c defs lookup).vertexCount = 24 ∧
        (buildMeshData c defs lookup).triangleCount = 12) := by
  constructor
  · intro c defs lookup t d hdef _ htr htair hblocks hlook
    have hnil : chunkQuads c defs lookup = [] := by
      unfold chunkQuads
      refine flatMap_eq_nil_of fun z _ => ?_
      refine flatMap_eq_nil_of fun y _ => ?_
      refine flatMap_eq_nil_of fun x _ => ?_
      unfold cellQuads
      rw [cellFaces_all_solid_nil hdef htr htair hblocks hlook]
      rfl
    rw [hnil]
    rfl
  · intro c defs lookup t d x0 y0 z0 hx0 hy0 hz0 hdef hsolid htair hblocks hlook
    have hcell : ∀ x y z : Nat, x < 16 → y < 16 → z < 16 →
        (cellQuads c defs lookup x y z).length
          = if x = x0 ∧ y = y0 ∧ z = z0 then 6 else 0 := by
      intro x y z hx hy hz
      by_cases hxyz : x = x0 ∧ y = y0 ∧ z = z0
      · obtain ⟨rfl, rfl, rfl⟩ := hxyz
        rw [if_pos ⟨rfl, rfl, rfl⟩]
        unfold cellQuads
        rw [List.length_map,
          cellFaces_single_target hdef hsolid htair hblocks hlook hx0 hy0 hz0]
        rfl
      · rw [if_neg hxyz]
        unfold cellQuads
        rw [List.length_map,
          cellFaces_single_off hblocks hxyz hx hy hz hx0 hy0 hz0]
        rfl
    have hq : (chunkQuads c defs lookup).length = 6 := by
      unfold chunkQuads
      refine flatMap_range_length_single 16 z0 6 _ hz0 fun z hzr => ?_
      by_cases hz' : z = z0
      · rw [if_pos hz']
        refine flatMap_range_length_single 16 y0 6 _ hy0 fun y hyr => ?_
        by_cases hy' : y = y0
        · rw [if_pos hy']
          refine flatMap_range_length_single 16 x0 6 _ hx0 fun x hxr => ?_
          rw [hcell x y z hxr hyr hzr]
          by_cases hx' : x = x0
          · rw [if_pos ⟨hx', hy', hz'⟩, if_pos hx']
          · rw [if_neg (fun hc => hx' hc.1), if_neg hx']
        · rw [if_neg hy']
          refine flatMap_range_length_zero fun x hxr => ?_
          rw [hcell x y z hxr hyr hzr, if_neg (fun hc => hy' hc.2.1)]
      · rw [if_neg hz']
        refine flatMap_range_length_zero fun y hyr => ?_
        refine flatMap_range_length_zero fun x hxr => ?_
        rw [hcell x y z hxr hyr hzr, if_neg (fun hc => hz' hc.2.2)]
    have hvert : ∀ q ∈ chunkQuads c defs lookup, (quadVerts q).length = 4 := by
      intro q hqm
      have hfm := chunkQuads_face_mem hqm
      unfold quadVerts
      rw [List.length_map]
      exact (by decide : ∀ f ∈ faceList, f.corners.length = 4) q.2 hfm
    refine ⟨hq, ?_, ?_⟩
    · show ((chunkQuads c defs lookup).flatMap quadVerts).length = 24
      rw [flatMap_length_const 4 hvert, hq]
    · show ((List.range (chunkQuads c defs lookup).length).flatMap fun i =>
        [4 * i, 4 * i + 1, 4 * i + 2, 4 * i, 4 * i + 2, 4 * i + 3]).length / 3 = 12
      have hind : ∀ i ∈ List.range (chunkQuads c defs lookup).length,
          ([4 * i, 4 * i + 1, 4 * i + 2, 4 * i, 4 * i + 2, 4 * i + 3] : List Nat).length
            = 6 := fun i _ => rfl
      rw [flatMap_length_const 6 hind, List.length_range, hq]

/-- Witness for `buildMesh_face_culling`: a registry where stone is solid and
opaque; a stone-filled chunk with stone lookups emits nothing, and a chunk
with a single stone block at `(8,8,8)` and air lookups emits 6 faces, 24
vertices and 12 triangles. -/
theorem buildMesh_face_culling_witness :
    (chunkQuads ⟨0, 0, 0, fun _ => BlockType.stone, true⟩
      (fun b => if b = BlockType.stone then some ⟨true, false, 8421504⟩ else none)
      (fun _ _ _ => BlockType.stone)).length = 0 ∧
    (chunkQuads ⟨0, 0, 0,
        fun i => if i = 8 + 16 * 8 + 256 * 8 then BlockType.stone
          else BlockType.air, true⟩
      (fun b => if b = BlockType.stone then some ⟨true, false, 8421504⟩ else none)
      (fun _ _ _ => BlockType.air)).length = 6 ∧
    (buildMeshData ⟨0, 0, 0,
        fun i => if i = 8 + 16 * 8 + 256 * 8 then BlockType.stone
          else BlockType.air, true⟩
      (fun b => if b = BlockType.stone then some ⟨true, false, 8421504⟩ else none)
      (fun _ _ _ => BlockType.air)).vertexCount = 24 ∧
    (buildMeshData ⟨0, 0, 0,
        fun i => if i = 8 + 16 * 8 + 256 * 8 then BlockType.stone
          else BlockType.air, true⟩
      (fun b => if b = BlockType.stone then some ⟨true, false, 8421504⟩ else none)
      (fun _ _ _ => BlockType.air)).triangleCount = 12 := by
  have hne : BlockType.stone ≠ BlockType.air := by decide
  have hA := buildMesh_face_culling.1
    ⟨0, 0, 0, fun _ => BlockType.stone, true⟩
    (fun b => if b = BlockType.stone then some ⟨true, false, 8421504⟩ else none)
    (fun _ _ _ => BlockType.stone) BlockType.stone ⟨true, false, 8421504⟩
    rfl rfl rfl hne (fun _ => rfl)
    (fun _ _ _ => ⟨hne, ⟨true, false, 8421504⟩, rfl, rfl⟩)
  have hB := buildMesh_face_culling.2
    ⟨0, 0, 0,
      fun i => if i = 8 + 16 * 8 + 256 * 8 then BlockType.stone
        else BlockType.air, true⟩
    (fun b => if b = BlockType.stone then some ⟨true, false, 8421504⟩ else none)
    (fun _ _ _ => BlockType.air) BlockType.stone ⟨true, false, 8421504⟩ 8 8 8
    (by decide) (by decide) (by decide) rfl rfl (by decide)
    (fun _ => rfl) (fun _ _ _ => rfl)
  exact ⟨hA, hB.1, hB.2.1, hB.2.2⟩

/-! ## Claim C4: `update` with no cap -/

lemma findChunk_append_some {m : List (ChunkKey × Chunk)} {q : ChunkKey} {c : Chunk}
    (h : findChunk m q = some c) (l : List (ChunkKey × Chunk)) :
    findChunk (m ++ l) q = some c := by
  induction m with
  | nil => exact absurd h (by simp [findChunk])
  | cons kv rest ih =>
    obtain ⟨k0, c0⟩ := kv
    rw [findChunk_cons] at h
    rw [List.cons_append, findChunk_cons]
    by_cases hk : k0 = q
    · rwa [if_pos hk] at h ⊢
    · rw [if_neg hk] at h ⊢
      exact ih h

lemma findChunk_append_isSome {m : List (ChunkKey × Chunk)} {q : ChunkKey}
    (h : (findChunk m q).isSome) (l : List (ChunkKey × Chunk)) :
    (findChunk (m ++ l) q).isSome := by
  obtain ⟨c, hc⟩ := Option.isSome_iff_exists.mp h
  rw [findChunk_append_some hc l]
  rfl

lemma genLoop_cons (oreDefs : List OreDef) (cap : Nat) (k : ChunkKey)
    (rest : List ChunkKey) (w : WorldManager) (g : Nat) (p : Bool) :
    genLoop oreDefs cap (k :: rest) w g p =
      if (findChunk w.chunks k).isSome then genLoop oreDefs cap rest w g p
      else if 0 < cap ∧ cap ≤ g then genLoop oreDefs cap rest w g true
      else genLoop oreDefs cap rest (insertChunk w oreDefs k) (g + 1) p := by
  rw [genLoop]

/-- With no budget, the admission loop never defers generation. -/
lemma genLoop_no_pending (oreDefs : List OreDef) (ks : List ChunkKey) :
    ∀ (w : WorldManager) (g : Nat),
      (genLoop oreDefs 0 ks w g false).2.2 = false := by
  induction ks with
  | nil => intro w g; rfl
  | cons k rest ih =>
    intro w g
    rw [genLoop_cons]
    by_cases hf : (findChunk w.chunks k).isSome
    · rw [if_pos hf]; exact ih w g
    · rw [if_neg hf, if_neg (by simp)]
      exact ih _ _

/-- Admission never removes chunks: a key present before stays present. -/
lemma genLoop_mono (oreDefs : List OreDef) (cap : Nat) (ks : List ChunkKey) :
    ∀ (w : WorldManager) (g : Nat) (p : Bool) (q : ChunkKey),
      (findChunk w.chunks q).isSome →
      (findChunk (genLoop oreDefs cap ks w g p).1.chunks q).isSome := by
  induction ks with
  | nil => intro w g p q h; exact h
  | cons k rest ih =>
    intro w g p q h
    rw [genLoop_cons]
    by_cases hf : (findChunk w.chunks k).isSome
    · rw [if_pos hf]; exact ih w g p q h
    · rw [if_neg hf]
      by_cases hb : 0 < cap ∧ cap ≤ g
      · rw [if_pos hb]; exact ih w g true q h
      · rw [if_neg hb]
        exact ih _ _ _ q (findChunk_append_isSome h _)

/-- With no budget, every needed key is materialized by the admission loop. -/
lemma genLoop_covers (oreDefs : List OreDef) (ks : List ChunkKey) :
    ∀ (w : WorldManager) (g : Nat) (p : Bool) (q : ChunkKey), q ∈ ks →
      (findChunk (genLoop oreDefs 0 ks w g p).1.chunks q).isSome := by
  induction ks with
  | nil => intro w g p q h; exact absurd h (by simp)
  | cons k rest ih =>
    intro w g p q hq
    rw [genLoop_cons]
    rcases List.mem_cons.mp hq with rfl | hmem
    · by_cases hf : (findChunk w.chunks q).isSome
      · rw [if_pos hf]
        exact genLoop_mono oreDefs 0 rest w g p q hf
      · rw [if_neg hf, if_neg (by simp)]
        refine genLoop_mono oreDefs 0 rest _ _ _ q ?_
        show (findChunk (w.chunks ++ [(q, _)]) q).isSome
        rw [findChunk_append_none (Option.not_isSome_iff_eq_none.mp hf),
          findChunk_cons, if_pos rfl]
        rfl
    · by_cases hf : (findChunk w.chunks k).isSome
      · rw [if_pos hf]; exact ih w g p q hmem
      · rw [if_neg hf, if_neg (by simp)]
        exact ih _ _ _ q hmem

/-- Admission only inserts freshly generated (dirty) chunks: if every chunk
was dirty before, every chunk is dirty after. -/
lemma genLoop_dirty (oreDefs : List OreDef) (cap : Nat) (ks : List ChunkKey) :
    ∀ (w : WorldManager) (g : Nat) (p : Bool),
      (∀ kv ∈ w.chunks, kv.2.dirty = true) →
      ∀ kv ∈ (genLoop oreDefs cap ks w g p).1.chunks, kv.2.dirty = true := by
  induction ks with
  | nil => intro w g p h; exact h
  | cons k rest ih =>
    intro w g p h
    rw [genLoop_cons]
    by_cases hf : (findChunk w.chunks k).isSome
    · rw [if_pos hf]; exact ih w g p h
    · rw [if_neg hf]
      by_cases hb : 0 < cap ∧ cap ≤ g
      · rw [if_pos hb]; exact ih w g true h
      · rw [if_neg hb]
        refine ih _ _ _ fun kv hkv => ?_
        rcases List.mem_append.mp hkv with hl | hr
        · exact h kv hl
        · rcases List.mem_singleton.mp hr with rfl
          rfl

/-- Unloading keeps every chunk whose key is still needed. -/
lemma findChunk_filter_mem {keys : List ChunkKey} {m : List (ChunkKey × Chunk)}
    {q : ChunkKey} (hq : q ∈ keys) :
    findChunk (m.filter fun kv => decide (kv.1 ∈ keys)) q = findChunk m q := by
  induction m with
  | nil => rfl
  | cons kv rest ih =>
    obtain ⟨k0, c0⟩ := kv
    by_cases hk0 : k0 ∈ keys
    · rw [List.filter_cons_of_pos (by simpa), findChunk_cons, findChunk_cons]
      by_cases hkq : k0 = q
      · rw [if_pos hkq, if_pos hkq]
      · rw [if_neg hkq, if_neg hkq]
        exact ih
    · rw [List.filter_cons_of_neg (by simpa), findChunk_cons,
        if_neg (fun hkq => hk0 (by rw [hkq]; exact hq))]
      exact ih

lemma rebuildLoop_cons (mx : Nat) (k : ChunkKey) (c : Chunk)
    (rest : List (ChunkKey × Chunk)) (r : Nat) (p : Bool) :
    rebuildLoop mx ((k, c) :: rest) r p =
      if c.dirty then
        if mx ≤ r then
          ((k, c) :: (rebuildLoop mx rest r true).1, (rebuildLoop mx rest r true).2)
        else
          ((k, { c with dirty := false }) :: (rebuildLoop mx rest (r + 1) p).1,
            (rebuildLoop mx rest (r + 1) p).2)
      else ((k, c) :: (rebuildLoop mx rest r p).1, (rebuildLoop mx rest r p).2) := by
  rw [rebuildLoop]

/-- The rebuild loop reports pending work exactly when the number of dirty
chunks exceeds the remaining budget. -/
lemma rebuildLoop_pending (mx : Nat) (l : List (ChunkKey × Chunk)) :
    ∀ (r : Nat) (p : Bool), r ≤ mx →
      (rebuildLoop mx l r p).2
        = (p || decide (mx < r + l.countP fun kv => kv.2.dirty)) := by
  induction l with
  | nil =>
    intro r p hr
    show p = _
    rw [List.countP_nil, decide_eq_false (by omega), Bool.or_false]
  | cons kv rest ih =>
    obtain ⟨k, c⟩ := kv
    intro r p hr
    rw [rebuildLoop_cons]
    by_cases hd : c.dirty
    · rw [if_pos hd]
      by_cases hb : mx ≤ r
      · rw [if_pos hb]
        show (rebuildLoop mx rest r true).2 = _
        rw [ih r true hr, Bool.true_or,
          List.countP_cons_of_pos _ _ (by simpa using hd),
          decide_eq_true (by omega), Bool.or_true]
      · rw [if_neg hb]
        show (rebuildLoop mx rest (r + 1) p).2 = _
        rw [ih (r + 1) p (by omega),
          List.countP_cons_of_pos _ _ (by simpa using hd)]
        congr 1
        exact decide_eq_decide.mpr (by omega)
    · rw [if_neg hd]
      show (rebuildLoop mx rest r p).2 = _
      rw [ih r p hr, List.countP_cons_of_neg _ _ (by simpa using hd)]

/-- The rebuild loop keeps every key present. -/
lemma rebuildLoop_find_isSome (mx : Nat) (l : List (ChunkKey × Chunk)) :
    ∀ (r : Nat) (p : Bool) (q : ChunkKey), (findChunk l q).isSome →
      (findChunk (rebuildLoop mx l r p).1 q).isSome := by
  induction l with
  | nil => intro r p q h; exact h
  | cons kv rest ih =>
    obtain ⟨k, c⟩ := kv
    intro r p q h
    rw [findChunk_cons] at h
    rw [rebuildLoop_cons]
    by_cases hkq : k = q
    · rw [if_pos hkq] at h
      by_cases hd : c.dirty
      · rw [if_pos hd]
        by_cases hb : mx ≤ r
        · rw [if_pos hb]
          show (findChunk ((k, c) :: _) q).isSome
          rw [findChunk_cons, if_pos hkq]
          rfl
        · rw [if_neg hb]
          show (findChunk ((k, _) :: _) q).isSome
          rw [findChunk_cons, if_pos hkq]
          rfl
      · rw [if_neg hd]
        show (findChunk ((k, c) :: _) q).isSome
        rw [findChunk_cons, if_pos hkq]
        rfl
    · rw [if_neg hkq] at h
      by_cases hd : c.dirty
      · rw [if_pos hd]
        by_cases hb : mx ≤ r
        · rw [if_pos hb]
          show (findChunk ((k, c) :: _) q).isSome
          rw [findChunk_cons, if_neg hkq]
          exact ih r true q h
        · rw [if_neg hb]
          show (findChunk ((k, _) :: _) q).isSome
          rw [findChunk_cons, if_neg hkq]
          exact ih (r + 1) p q h
      · rw [if_neg hd]
        show (findChunk ((k, c) :: _) q).isSome
        rw [findChunk_cons, if_neg hkq]
        exact ih r p q h

/-- A found key occurs among the stored keys. -/
lemma findChunk_key_mem {m : List (ChunkKey × Chunk)} {q : ChunkKey}
    (h : (findChunk m q).isSome) : q ∈ m.map Prod.fst := by
  induction m with
  | nil => exact absurd h (by simp [findChunk])
  | cons kv rest ih =>
    obtain ⟨k0, c0⟩ := kv
    rw [findChunk_cons] at h
    by_cases hk : k0 = q
    · simp [hk]
    · rw [if_neg hk] at h
      simp [ih h]

lemma not_decide_lt_four (c : Nat) : (!decide (4 < 0 + c)) = decide (c ≤ 4) := by
  by_cases h : 4 < 0 + c
  · rw [decide_eq_true h, decide_eq_false (by omega : ¬c ≤ 4)]
    rfl
  · rw [decide_eq_false h, decide_eq_true (by omega : c ≤ 4)]
    rfl

/-- C4 (amended): a single `update` call with no cap (`maxChunksPerFrame = 0`)
performs unbounded generation — it never defers generation and every chunk of
the needed set is materialized in the returned world — but mesh rebuilds stay
capped at 4 per call even with no cap supplied, so the call returns `true`
exactly when at most 4 chunks are dirty after admission and unloading. -/
theorem update_nocap_caps_rebuilds (w : WorldManager) (oreDefs : List OreDef)
    (px py pz : ℚ) :
    (genLoop oreDefs 0
        (neededKeys ((⌊px / BLOCK_SIZE⌋ : Int).fdiv 16)
          ((⌊pz / BLOCK_SIZE⌋ : Int).fdiv 16)) w 0 false).2.2 = false ∧
    (∀ k ∈ neededKeys ((⌊px / BLOCK_SIZE⌋ : Int).fdiv 16)
        ((⌊pz / BLOCK_SIZE⌋ : Int).fdiv 16),
      (findChunk (w.update oreDefs px py pz 0).2.chunks k).isSome) ∧
    (w.update oreDefs px py pz 0).1 = decide
      ((((genLoop oreDefs 0
          (neededKeys ((⌊px / BLOCK_SIZE⌋ : Int).fdiv 16)
            ((⌊pz / BLOCK_SIZE⌋ : Int).fdiv 16)) w 0 false).1.chunks.filter
          fun kv => decide (kv.1 ∈ neededKeys ((⌊px / BLOCK_SIZE⌋ : Int).fdiv 16)
            ((⌊pz / BLOCK_SIZE⌋ : Int).fdiv 16))).countP
        fun kv => kv.2.dirty) ≤ 4) := by
  refine ⟨genLoop_no_pending oreDefs _ w 0, ?_, ?_⟩
  · intro k hk
    simp only [WorldManager.update]
    refine rebuildLoop_find_isSome _ _ 0 false k ?_
    rw [findChunk_filter_mem hk]
    exact genLoop_covers oreDefs _ w 0 false k hk
  · simp only [WorldManager.update]
    rw [genLoop_no_pending oreDefs _ w 0,
      rebuildLoop_pending _ _ 0 false (by norm_num)]
    rw [Bool.not_false, Bool.true_and, Bool.false_or]
    rw [show (if 0 < 0 then 0 else 4) = 4 from rfl]
    exact not_decide_lt_four _

set_option maxRecDepth 100000 in
/-- C4 (counterexample): on a fresh world the first uncapped `update` call at
the origin returns `false`, because all needed chunks are freshly generated
(hence dirty) and the rebuild budget without a cap is 4, far below the number
of needed chunks — refuting "a single call with no cap forces full completion
and returns true". -/
theorem update_nocap_counterexample :
    (WorldManager.update ⟨42, []⟩ [] 0 0 0 0).1 = false := by
  have hfloor : (⌊(0 : ℚ) / BLOCK_SIZE⌋ : Int).fdiv 16 = 0 := by
    norm_num [BLOCK_SIZE]
  simp only [WorldManager.update, hfloor]
  rw [genLoop_no_pending, rebuildLoop_pending _ _ 0 false (by norm_num)]
  rw [show (if 0 < 0 then 0 else 4) = 4 from rfl]
  have hkL : ∀ k ∈ ([(0, -8, 0), (0, -7, 0), (0, -6, 0), (0, -5, 0), (0, -4, 0)]
      : List ChunkKey), k ∈ neededKeys 0 0 := by decide
  have hdirtyG := genLoop_dirty [] 0 (neededKeys 0 0) ⟨42, []⟩ 0 false
    (by intro kv hkv; exact absurd hkv (by simp))
  have hdirty : ∀ kv ∈ ((genLoop [] 0 (neededKeys 0 0) ⟨42, []⟩ 0 false).1.chunks.filter
      fun kv => decide (kv.1 ∈ neededKeys 0 0)), kv.2.dirty = true :=
    fun kv hkv => hdirtyG kv (List.mem_of_mem_filter hkv)
  have hcnt : (((genLoop [] 0 (neededKeys 0 0) ⟨42, []⟩ 0 false).1.chunks.filter
        fun kv => decide (kv.1 ∈ neededKeys 0 0)).countP fun kv => kv.2.dirty)
      = ((genLoop [] 0 (neededKeys 0 0) ⟨42, []⟩ 0 false).1.chunks.filter
        fun kv => decide (kv.1 ∈ neededKeys 0 0)).length :=
    List.countP_eq_length.mpr fun kv hkv => hdirty kv hkv
  have hmem : ∀ k ∈ ([(0, -8, 0), (0, -7, 0), (0, -6, 0), (0, -5, 0), (0, -4, 0)]
      : List ChunkKey),
      k ∈ (((genLoop [] 0 (neededKeys 0 0) ⟨42, []⟩ 0 false).1.chunks.filter
        fun kv => decide (kv.1 ∈ neededKeys 0 0)).map Prod.fst) := by
    intro k hk
    refine findChunk_key_mem ?_
    rw [findChunk_filter_mem (hkL k hk)]
    exact genLoop_covers [] (neededKeys 0 0) ⟨42, []⟩ 0 false k (hkL k hk)
  have hsub : ({(0, -8, 0), (0, -7, 0), (0, -6, 0), (0, -5, 0), (0, -4, 0)}
      : Finset ChunkKey) ⊆ (((genLoop [] 0 (neededKeys 0 0) ⟨42, []⟩ 0
        false).1.chunks.filter
        fun kv => decide (kv.1 ∈ neededKeys 0 0)).map Prod.fst).toFinset := by
    intro k hk
    rw [List.mem_toFinset]
    simp only [Finset.mem_insert, Finset.mem_singleton] at hk
    rcases hk with rfl | rfl | rfl | rfl | rfl <;> exact hmem _ (by simp)
  have hfive : 5 ≤ (((genLoop [] 0 (neededKeys 0 0) ⟨42, []⟩ 0 false).1.chunks.filter
      fun kv => decide (kv.1 ∈ neededKeys 0 0)).map Prod.fst).toFinset.card := by
    have hcard : ({(0, -8, 0), (0, -7, 0), (0, -6, 0), (0, -5, 0), (0, -4, 0)}
        : Finset ChunkKey).card = 5 := by decide
    rw [← hcard]
    exact Finset.card_le_card hsub
  have hlen : 5 ≤ (((genLoop [] 0 (neededKeys 0 0) ⟨42, []⟩ 0 false).1.chunks.filter
      fun kv => decide (kv.1 ∈ neededKeys 0 0))).length := by
    have h1 := List.toFinset_card_le (((genLoop [] 0 (neededKeys 0 0) ⟨42, []⟩ 0
      false).1.chunks.filter fun kv => decide (kv.1 ∈ neededKeys 0 0)).map Prod.fst)
    rw [List.length_map] at h1
    omega
  rw [decide_eq_true (by omega : (4 : Nat) < 0 + _)]
  rfl

set_option maxRecDepth 100000 in
/-- Witness for `update_nocap_caps_rebuilds`: after one uncapped `update` of
an empty world at the origin, the needed chunk `(0, 0, 0)` is materialized. -/
theorem update_nocap_caps_rebuilds_witness :
    ((0, 0, 0) : ChunkKey) ∈ neededKeys ((⌊(0 : ℚ) / BLOCK_SIZE⌋ : Int).fdiv 16)
        ((⌊(0 : ℚ) / BLOCK_SIZE⌋ : Int).fdiv 16) ∧
      (findChunk (WorldManager.update ⟨1, []⟩ [] 0 0 0 0).2.chunks
        (0, 0, 0)).isSome = true := by
  have hfloor : (⌊(0 : ℚ) / BLOCK_SIZE⌋ : Int).fdiv 16 = 0 := by
    norm_num [BLOCK_SIZE]
  have hmem : ((0, 0, 0) : ChunkKey) ∈
      neededKeys ((⌊(0 : ℚ) / BLOCK_SIZE⌋ : Int).fdiv 16)
        ((⌊(0 : ℚ) / BLOCK_SIZE⌋ : Int).fdiv 16) := by
    rw [hfloor]
    decide
  exact ⟨hmem, (update_nocap_caps_rebuilds ⟨1, []⟩ [] 0 0 0).2.1 (0, 0, 0) hmem⟩
